import Mathlib

/-!
OpenCoach reminder lifecycle engine — verification.

Shallow embedding of the reminder engine of the OpenCoach repository:

* `src/app/api/reminders/route.ts` — extraction cycle `POST` (fingerprint
  skip, extraction-failure abort, merge of fresh reminders with the existing
  store) and the acknowledge `POST` (marking reminders completed).
* `src/app/api/reminders/check/route.ts` — due-check `GET` (due detection,
  in-place marking, persistence).

JavaScript conventions mapped to Lean:

* `completed?: boolean` (absent / `false` / `true`) becomes `Option Bool`;
  the truthiness test `!reminder.completed` becomes
  `completed.getD false = false`, and `completed === true` becomes
  `completed = some true`.
* `new Date(s)` followed by `d <= now` becomes an abstract parse function
  `parse : String → Option Int` (milliseconds since epoch); an invalid date
  is `none`, and in JavaScript every comparison against an Invalid Date is
  `false` (NaN comparisons), which the `none → false` branch models.
* `Map.set` while iterating a list means a later entry with the same key
  overwrites an earlier one, so `Map.get` is a last-wins lookup.
* Object references: `dueReminders.push(reminder)` stores a *reference* into
  the store's array, so the later in-place `reminder.completed = true`
  mutation is visible through the returned list.  The embedding keeps both
  the pre-mutation array and the post-mutation array and reads the returned
  list from the post-mutation one at the pushed positions.
-/

namespace OpenCoach

/-- A stored reminder (`StateFile.reminders` element in `route.ts`):
`{ dateTime: string; reminderText: string; completed?: boolean }`. -/
structure Reminder where
  dateTime : String
  reminderText : String
  completed : Option Bool
deriving DecidableEq, Repr

/-- A freshly extracted reminder (`RemindersPayload.reminders` element):
`{ dateTime: string; reminderText: string }` — no `completed` field. -/
structure FreshReminder where
  dateTime : String
  reminderText : String
deriving DecidableEq, Repr

/-- When a fresh reminder is pushed into the store its `completed` field is
absent (`undefined`), i.e. `none`. -/
def FreshReminder.toReminder (f : FreshReminder) : Reminder :=
  { dateTime := f.dateTime, reminderText := f.reminderText, completed := none }

/-- The persisted `state.json` document (`StateFile` in `route.ts`); the
fields the engine reads and writes.  All fields are optional in the source. -/
structure StateFile where
  reminders : Option (List Reminder)
  lastRun : Option String
  lastContextMtimeMs : Option Int
  notesFolderPath : Option String
deriving DecidableEq, Repr

/-! ## Merge reconciler (`route.ts` POST, lines 104–139) -/

/-- Lookup `existingRemindersMap.get dt` where the map was built by
`for (const existing of existingReminders) map.set(existing.dateTime, existing)`:
a later list entry overwrites an earlier one with the same `dateTime`, so the
lookup returns the *last* matching element. -/
def existingRemindersMapGet (existing : List Reminder) (dt : String) : Option Reminder :=
  existing.reverse.find? (fun r => r.dateTime == dt)

/-- The merge loop of `route.ts` POST (lines 114–139): for each fresh
reminder, keep the mapped existing reminder if it is completed, otherwise
emit the fresh one; then append every completed existing reminder whose
`dateTime` does not occur in the fresh list. -/
def mergeReminders (existing : List Reminder) (fresh : List FreshReminder) :
    List Reminder :=
  (fresh.map fun f =>
    match existingRemindersMapGet existing f.dateTime with
    | some e => if e.completed == some true then e else f.toReminder
    | none => f.toReminder)
  ++ existing.filter fun e =>
      e.completed == some true && !(fresh.any fun f => f.dateTime == e.dateTime)

/-! ## Extraction cycle (`route.ts` POST, lines 81–155) -/

/-- Outcome of one extraction cycle, after `CONTEXT.md` was found and
`state.json` was loaded. -/
inductive CycleOutcome where
  | skippedUnchanged
  | extractionError
  | updated
deriving DecidableEq, Repr

/-- One extraction cycle (`route.ts` POST lines 81–155), given the loaded
state, the current `CONTEXT.md` mtime, the extraction collaborator's result
(`none` models `callOpenAIForReminders` returning `null`), the current ISO
time and the request's notes folder path.  Returns the outcome, the state
persisted afterwards (the store is only written in the `updated` case), and
whether the extraction collaborator was invoked. -/
def runCycle (state : StateFile) (currentMtimeMs : Int)
    (extraction : Option (List FreshReminder)) (nowIso : String)
    (notesFolderPath : String) : CycleOutcome × StateFile × Bool :=
  if state.lastContextMtimeMs == some currentMtimeMs then
    (.skippedUnchanged, state, false)
  else
    match extraction with
    | none => (.extractionError, state, true)
    | some fresh =>
      (.updated,
        { reminders := some (mergeReminders (state.reminders.getD []) fresh),
          lastRun := some nowIso,
          lastContextMtimeMs := some currentMtimeMs,
          notesFolderPath := some notesFolderPath },
        true)

/-! ## Acknowledge (`route.ts` second POST, lines 330–356) -/

/-- One iteration of the acknowledge loop:
`if (reminderDateTimes.includes(reminder.dateTime) && !reminder.completed)`
mark completed and count 1, else leave alone and count 0. -/
def ackStep (dts : List String) (r : Reminder) : Reminder × Nat :=
  if dts.contains r.dateTime && !(r.completed.getD false) then
    ({ r with completed := some true }, 1)
  else (r, 0)

/-- The acknowledge loop over the reminder list: each reminder is visited
once and updated independently; `markedCount` is the number of reminders
marked in this call. -/
def acknowledgeList (dts : List String) (reminders : List Reminder) :
    List Reminder × Nat :=
  (reminders.map fun r => (ackStep dts r).1,
   (reminders.map fun r => (ackStep dts r).2).sum)

/-- The acknowledge endpoint at store level: when `markedCount = 0` the store
is not written (`route.ts` lines 342–348), otherwise `{...state, reminders}`
is persisted. -/
def acknowledgeStore (dts : List String) (state : StateFile) :
    StateFile × Nat :=
  let p := acknowledgeList dts (state.reminders.getD [])
  (if p.2 = 0 then state else { state with reminders := some p.1 }, p.2)

/-! ## Due check (`check/route.ts` GET, lines 56–109) -/

/-- The due test of the scan loop (lines 59–74): skip when
`completed === true`; otherwise `new Date(dateTime) <= now`, which is `false`
for an Invalid Date (`none`). -/
def isDue (parse : String → Option Int) (now : Int) (r : Reminder) : Bool :=
  !(r.completed == some true) &&
    match parse r.dateTime with
    | some t => decide (t ≤ now)
    | none => false

/-- One iteration of the marking loop (lines 81–88):
`reminders.find(r => r.dateTime === dt)` followed by
`if (reminder && !reminder.completed) reminder.completed = true`.  Returns
the updated array and whether this iteration mutated it. -/
def markFirstMatch (dt : String) : List Reminder → List Reminder × Bool
  | [] => ([], false)
  | r :: rs =>
    if r.dateTime == dt then
      if r.completed.getD false then (r :: rs, false)
      else ({ r with completed := some true } :: rs, true)
    else
      let p := markFirstMatch dt rs
      (r :: p.1, p.2)

/-- The whole marking loop folded over the due reminders' `dateTime`s
(`dateTime` is never mutated, so reading it from the pushed references during
the loop equals reading it from the pre-mutation array). -/
def markList (dts : List String) (reminders : List Reminder) : List Reminder :=
  dts.foldl (fun acc dt => (markFirstMatch dt acc).1) reminders

/-- Flag `markedAny` of the marking loop: whether any iteration mutated the
array (the store is written only in that case, lines 90–103). -/
def markListAny (dts : List String) (reminders : List Reminder) : Bool :=
  (dts.foldl
    (fun acc dt =>
      let p := markFirstMatch dt acc.1
      (p.1, acc.2 || p.2))
    (reminders, false)).2

/-- The due-check `GET` (lines 56–109), with the store-write assumed to
succeed.  Returns the serialized `dueReminders` list and the state persisted
afterwards.  Because `dueReminders.push(reminder)` pushes references into the
store's array, the serialized list shows the *post*-mutation objects: the
returned list is the marked array read at the positions that were due in the
pre-mutation array. -/
def checkDue (parse : String → Option Int) (now : Int) (state : StateFile) :
    List Reminder × StateFile :=
  let reminders := state.reminders.getD []
  let due := reminders.filter (isDue parse now)
  if due.isEmpty then ([], state)
  else
    let dueDts := due.map Reminder.dateTime
    let marked := markList dueDts reminders
    let returned :=
      ((reminders.zip marked).filter fun p => isDue parse now p.1).map Prod.snd
    (returned,
     if markListAny dueDts reminders then { state with reminders := some marked }
     else state)

/-- The in-place mutation `reminder.completed = true` applied to a reminder
value: only the `completed` field changes. -/
def setCompleted (r : Reminder) : Reminder :=
  { r with completed := some true }

/-- A concrete fragment of JavaScript date parsing, for witnesses: the epoch
string parses to `0` and everything else is an Invalid Date. -/
def parse1970 : String → Option Int := fun s =>
  if s = "1970-01-01T00:00:00Z" then some 0 else none

/-- Concrete store with a single pending reminder due at the epoch. -/
def epochStore : StateFile :=
  { reminders := some [⟨"1970-01-01T00:00:00Z", "stretch", none⟩],
    lastRun := none, lastContextMtimeMs := none, notesFolderPath := none }

/-- Concrete store with a single pending reminder whose `dateTime` string
does not parse as a date. -/
def badDateStore : StateFile :=
  { reminders := some [⟨"not-a-date", "stretch", none⟩],
    lastRun := none, lastContextMtimeMs := none, notesFolderPath := none }

/-! ## Helper lemmas about the merge reconciler -/

theorem existingRemindersMapGet_dateTime {existing : List Reminder} {dt : String}
    {e : Reminder} (h : existingRemindersMapGet existing dt = some e) :
    e.dateTime = dt := by
  have := List.find?_some h
  simpa using this

theorem existingRemindersMapGet_mem {existing : List Reminder} {dt : String}
    {e : Reminder} (h : existingRemindersMapGet existing dt = some e) :
    e ∈ existing := by
  have := List.mem_of_find?_eq_some h
  simpa using this

theorem existingRemindersMapGet_of_nodup {existing : List Reminder} {e : Reminder}
    (hnd : (existing.map Reminder.dateTime).Nodup) (he : e ∈ existing) :
    existingRemindersMapGet existing e.dateTime = some e := by
  rcases hfind : existingRemindersMapGet existing e.dateTime with _ | r
  · exfalso
    have hall := List.find?_eq_none.1 hfind e (by simpa using he)
    simp at hall
  · have hr : r ∈ existing := existingRemindersMapGet_mem hfind
    have hdt : r.dateTime = e.dateTime := existingRemindersMapGet_dateTime hfind
    have : r = e := List.inj_on_of_nodup_map hnd hr he hdt
    rw [this]

/-- C1 — counterexample.  With duplicate `dateTime` values among the existing
reminders the merge loses a completed reminder: the map built over the
existing list is last-wins, so the completed reminder `⟨"a","x",true⟩` is
shadowed by the later pending `⟨"a","y",·⟩`, the fresh entry for `"a"` wins,
and the completed reminder is dropped from the output entirely. -/
theorem merge_completed_lost_cex :
    (⟨"a", "x", some true⟩ : Reminder) ∈
        ([⟨"a", "x", some true⟩, ⟨"a", "y", none⟩] : List Reminder) ∧
      (⟨"a", "x", some true⟩ : Reminder).completed = some true ∧
      (⟨"a", "x", some true⟩ : Reminder) ∉
        mergeReminders [⟨"a", "x", some true⟩, ⟨"a", "y", none⟩]
          [⟨"a", "z"⟩] := by
  refine ⟨by decide, rfl, by decide⟩

/-- C1 — amended: for every list of existing reminders *with pairwise
distinct `dateTime` values* and every fresh extraction list, every existing
reminder with `completed = true` appears in the output of the merge
reconciler unchanged (the very same record, hence same `dateTime`, same
`reminderText`, still completed); so no completed reminder is lost or
reverted by a merge. -/
theorem merge_preserves_completed {existing : List Reminder}
    (fresh : List FreshReminder) {e : Reminder}
    (hnd : (existing.map Reminder.dateTime).Nodup) (he : e ∈ existing)
    (hc : e.completed = some true) :
    e ∈ mergeReminders existing fresh ∧ e.completed = some true := by
  refine ⟨?_, hc⟩
  unfold mergeReminders
  by_cases hf : ∃ f ∈ fresh, f.dateTime = e.dateTime
  · rcases hf with ⟨f, hfmem, hfdt⟩
    apply List.mem_append_left
    apply List.mem_map.2
    refine ⟨f, hfmem, ?_⟩
    rw [hfdt, existingRemindersMapGet_of_nodup hnd he]
    simp [hc]
  · apply List.mem_append_right
    apply List.mem_filter.2
    refine ⟨he, ?_⟩
    simp only [Bool.and_eq_true, beq_iff_eq, Bool.not_eq_eq_eq_not, Bool.not_true,
      List.any_eq_false]
    exact ⟨hc, by simpa using fun f hn hdt => hf ⟨f, hn, hdt⟩⟩

/-- C5 — counterexample.  Duplicate `dateTime` values in the fresh extraction
list are *not* collapsed by the merge: with an empty store and two fresh
entries sharing `dateTime = "a"`, the output contains two reminders with the
same `dateTime`, violating the natural-key invariant. -/
theorem merge_duplicates_not_collapsed_cex :
    mergeReminders [] [⟨"a", "x"⟩, ⟨"a", "y"⟩] =
        [⟨"a", "x", none⟩, ⟨"a", "y", none⟩] ∧
      ¬ ((mergeReminders [] [⟨"a", "x"⟩, ⟨"a", "y"⟩]).map
          Reminder.dateTime).Nodup := by
  refine ⟨by decide, by decide⟩

/-- C5 — amended: when the existing store has pairwise distinct `dateTime`
values *and the fresh extraction list does too*, the merge output has
pairwise distinct `dateTime` values; duplicates within a fresh batch are not
collapsed (neither last-wins nor first-wins) but propagated verbatim. -/
theorem merge_nodup_key {existing : List Reminder} {fresh : List FreshReminder}
    (hex : (existing.map Reminder.dateTime).Nodup)
    (hfr : (fresh.map FreshReminder.dateTime).Nodup) :
    ((mergeReminders existing fresh).map Reminder.dateTime).Nodup := by
  unfold mergeReminders
  rw [List.map_append]
  have hpart1 :
      ((fresh.map fun f =>
            match existingRemindersMapGet existing f.dateTime with
            | some e => if e.completed == some true then e else f.toReminder
            | none => f.toReminder).map
          Reminder.dateTime) =
        fresh.map FreshReminder.dateTime := by
    rw [List.map_map]
    apply List.map_congr_left
    intro f _
    rcases hget : existingRemindersMapGet existing f.dateTime with _ | e
    · simp [hget, FreshReminder.toReminder]
    · by_cases hc : e.completed = some true
      · simp [hget, hc, existingRemindersMapGet_dateTime hget]
      · simp [hget, hc, FreshReminder.toReminder]
  rw [hpart1]
  have hpart2 :
      ((existing.filter fun e =>
            e.completed == some true &&
              !(fresh.any fun f => f.dateTime == e.dateTime)).map
          Reminder.dateTime).Nodup :=
    hex.sublist ((List.filter_sublist existing).map Reminder.dateTime)
  refine hfr.append hpart2 ?_
  intro dt h1 h2
  rcases List.mem_map.1 h2 with ⟨e, hemem, hedt⟩
  rcases List.mem_filter.1 hemem with ⟨_, hcond⟩
  rcases List.mem_map.1 h1 with ⟨f, hfmem, hfdt⟩
  simp only [Bool.and_eq_true, Bool.not_eq_eq_eq_not, Bool.not_true,
    List.any_eq_false] at hcond
  exact hcond.2 f hfmem (by simp [hfdt, hedt])

/-- C6 — confirmed: every existing reminder that is not completed and whose
`dateTime` does not occur in the fresh list is absent from the merge output
(stale pending reminders decay). -/
theorem merge_drops_stale_pending {existing : List Reminder}
    {fresh : List FreshReminder} {e : Reminder} (he : e ∈ existing)
    (hc : e.completed ≠ some true)
    (hd : e.dateTime ∉ fresh.map FreshReminder.dateTime) :
    e ∉ mergeReminders existing fresh := by
  intro hmem
  rcases List.mem_append.1 hmem with h1 | h2
  · rcases List.mem_map.1 h1 with ⟨f, hfmem, heq⟩
    rcases hget : existingRemindersMapGet existing f.dateTime with _ | e0
    · have hfe : f.toReminder = e := by simpa [hget] using heq
      apply hd
      rw [← hfe]
      exact List.mem_map.2 ⟨f, hfmem, rfl⟩
    · by_cases hc0 : e0.completed = some true
      · have he0 : e0 = e := by simpa [hget, hc0] using heq
        exact hc (by rw [← he0, hc0])
      · have hfe : f.toReminder = e := by simpa [hget, hc0] using heq
        apply hd
        rw [← hfe]
        exact List.mem_map.2 ⟨f, hfmem, rfl⟩
  · rcases List.mem_filter.1 h2 with ⟨_, hcond⟩
    simp only [Bool.and_eq_true, beq_iff_eq] at hcond
    exact hc hcond.1

/-! ## Extraction cycle claims -/

/-- C7 — confirmed: when a first extraction cycle completes successfully
(outcome `updated`, store written), a second cycle against the same source
fingerprint returns the `skippedUnchanged` outcome, does not invoke the
extraction collaborator (third component `false`), and leaves the store
unmodified; hence the collaborator runs at most once across the two calls. -/
theorem cycle_fingerprint_skip (s : StateFile) (m : Int)
    (e1 : Option (List FreshReminder)) (n1 p1 : String)
    (e2 : Option (List FreshReminder)) (n2 p2 : String)
    (h : (runCycle s m e1 n1 p1).1 = CycleOutcome.updated) :
    runCycle (runCycle s m e1 n1 p1).2.1 m e2 n2 p2 =
      (CycleOutcome.skippedUnchanged, (runCycle s m e1 n1 p1).2.1, false) := by
  by_cases hskip : s.lastContextMtimeMs = some m
  · simp [runCycle, hskip] at h
  · rcases e1 with _ | fresh
    · simp [runCycle, hskip] at h
    · simp [runCycle, hskip]

/-- C8 — confirmed: when the extraction collaborator returns a missing or
malformed result (`none`), the cycle aborts with the error outcome and the
persisted store is entirely unchanged — in particular
`lastContextMtimeMs` (the source fingerprint) keeps its previous value, so
the next tick re-attempts extraction against the same still-changed
document.  The hypothesis states that the fingerprint had changed, i.e. the
collaborator was actually invoked. -/
theorem cycle_extraction_failure_keeps_store (state : StateFile) (m : Int)
    (n p : String) (h : state.lastContextMtimeMs ≠ some m) :
    runCycle state m none n p = (CycleOutcome.extractionError, state, true) := by
  simp [runCycle, h]

/-! ## Acknowledge claims -/

theorem ackStep_twice (dts : List String) (r : Reminder) :
    ackStep dts (ackStep dts r).1 = ((ackStep dts r).1, 0) := by
  by_cases hmem : r.dateTime ∈ dts
  · by_cases hcv : r.completed.getD false = true
    · simp [ackStep, hmem, hcv]
    · simp [ackStep, hmem, hcv]
  · simp [ackStep, hmem]

/-- C9 — confirmed: acknowledge is idempotent.  After one acknowledge call,
a second call with the same `dateTime` list returns `markedCount = 0` and
leaves the store unchanged; and a reminder that is already completed is
never counted or modified by an acknowledge step (a no-op, not an error). -/
theorem acknowledge_idempotent (dts : List String) (state : StateFile) :
    (acknowledgeStore dts (acknowledgeStore dts state).1).2 = 0 ∧
      (acknowledgeStore dts (acknowledgeStore dts state).1).1 =
        (acknowledgeStore dts state).1 ∧
      ∀ r ∈ state.reminders.getD [], r.completed = some true →
        ackStep dts r = (r, 0) := by
  have hstep : ∀ rs : List Reminder,
      acknowledgeList dts (acknowledgeList dts rs).1 =
        ((acknowledgeList dts rs).1, 0) := by
    intro rs
    unfold acknowledgeList
    simp only [List.map_map, Prod.mk.injEq]
    refine ⟨List.map_congr_left ?_, ?_⟩
    · intro r _
      simp [Function.comp, ackStep_twice dts r]
    · have hz : (rs.map ((fun r => (ackStep dts r).2) ∘ fun r => (ackStep dts r).1)) =
          rs.map fun _ => 0 := by
        apply List.map_congr_left
        intro r _
        simp [Function.comp, ackStep_twice dts r]
      rw [hz]
      simp
  have hcompleted : ∀ r ∈ state.reminders.getD [], r.completed = some true →
      ackStep dts r = (r, 0) := by
    intro r _ hr
    simp [ackStep, hr]
  have hmain : acknowledgeStore dts (acknowledgeStore dts state).1 =
      ((acknowledgeStore dts state).1, 0) := by
    by_cases hz : (acknowledgeList dts (state.reminders.getD [])).2 = 0
    · have hs1 : (acknowledgeStore dts state).1 = state := by
        simp [acknowledgeStore, hz]
      rw [hs1]
      simp [acknowledgeStore, hz]
    · have hs1 : (acknowledgeStore dts state).1 =
          { state with
            reminders := some (acknowledgeList dts (state.reminders.getD [])).1 } := by
        simp [acknowledgeStore, hz]
      rw [hs1]
      simp [acknowledgeStore, hstep (state.reminders.getD [])]
  exact ⟨by rw [hmain], by rw [hmain], hcompleted⟩

/-! ## Helper lemmas about the due check -/

theorem setCompleted_dateTime (r : Reminder) :
    (setCompleted r).dateTime = r.dateTime := rfl

theorem setCompleted_reminderText (r : Reminder) :
    (setCompleted r).reminderText = r.reminderText := rfl

theorem isDue_iff (parse : String → Option Int) (now : Int) (r : Reminder) :
    isDue parse now r = true ↔
      (¬ r.completed = some true ∧ ∃ t, parse r.dateTime = some t ∧ t ≤ now) := by
  unfold isDue
  rcases h : parse r.dateTime with _ | t
  · simp [h]
  · simp [h]

theorem isDue_falsy {parse : String → Option Int} {now : Int} {r : Reminder}
    (h : isDue parse now r = true) : r.completed.getD false = false := by
  have hne := ((isDue_iff parse now r).1 h).1
  rcases hc : r.completed with _ | b
  · rfl
  · cases b
    · rfl
    · exact absurd hc hne

theorem isDue_setCompleted (parse : String → Option Int) (now : Int)
    (r : Reminder) : isDue parse now (setCompleted r) = false := by
  simp [isDue, setCompleted]

theorem isDue_parse_some {parse : String → Option Int} {now : Int}
    {r : Reminder} (h : isDue parse now r = true) :
    ∃ t, parse r.dateTime = some t := by
  rcases ((isDue_iff parse now r).1 h).2 with ⟨t, ht, _⟩
  exact ⟨t, ht⟩

theorem markFirstMatch_nodup (dt : String) (rs : List Reminder)
    (hnd : (rs.map Reminder.dateTime).Nodup)
    (hall : ∀ r ∈ rs, r.dateTime = dt → r.completed.getD false = false) :
    (markFirstMatch dt rs).1 =
      rs.map fun r => if r.dateTime = dt then setCompleted r else r := by
  induction rs with
  | nil => rfl
  | cons r rs ih =>
    rw [List.map_cons] at hnd
    have hnd' := List.nodup_cons.1 hnd
    by_cases hdt : r.dateTime = dt
    · have hfalsy : r.completed.getD false = false := hall r (by simp) hdt
      have htail : ∀ x ∈ rs, ¬ x.dateTime = dt := by
        intro x hx hxdt
        exact hnd'.1 (by rw [hdt, ← hxdt]; exact List.mem_map.2 ⟨x, hx, rfl⟩)
      have hmapid :
          (rs.map fun x => if x.dateTime = dt then setCompleted x else x) = rs := by
        have := List.map_congr_left
          (f := fun x => if x.dateTime = dt then setCompleted x else x)
          (g := id) (l := rs) fun x hx => by simp [if_neg (htail x hx)]
        simpa using this
      have hred : (markFirstMatch dt (r :: rs)).1 = setCompleted r :: rs := by
        simp [markFirstMatch, hdt, hfalsy, setCompleted]
      rw [hred, List.map_cons, if_pos hdt, hmapid]
    · have hall' : ∀ x ∈ rs, x.dateTime = dt → x.completed.getD false = false :=
        fun x hx => hall x (List.mem_cons_of_mem r hx)
      have hred : (markFirstMatch dt (r :: rs)).1 = r :: (markFirstMatch dt rs).1 := by
        simp [markFirstMatch, hdt]
      rw [hred, List.map_cons, if_neg hdt, ih hnd'.2 hall']

theorem markList_nodup_eq :
    ∀ (dts : List String) (rs : List Reminder),
      (rs.map Reminder.dateTime).Nodup → dts.Nodup →
      (∀ dt ∈ dts, ∀ r ∈ rs, r.dateTime = dt → r.completed.getD false = false) →
      markList dts rs =
        rs.map fun r => if r.dateTime ∈ dts then setCompleted r else r
  | [], rs, _, _, _ => by simp [markList]
  | dt :: dts, rs, hnd, hdts, hall => by
    have h1 : (markFirstMatch dt rs).1 =
        rs.map fun r => if r.dateTime = dt then setCompleted r else r :=
      markFirstMatch_nodup dt rs hnd (hall dt (by simp))
    have hstep : markList (dt :: dts) rs = markList dts (markFirstMatch dt rs).1 := rfl
    rw [hstep, h1]
    have hdtnot : dt ∉ dts := (List.nodup_cons.1 hdts).1
    have hnd1 : ((rs.map fun r =>
        if r.dateTime = dt then setCompleted r else r).map Reminder.dateTime).Nodup := by
      rw [List.map_map]
      have : rs.map (Reminder.dateTime ∘ fun r =>
          if r.dateTime = dt then setCompleted r else r) = rs.map Reminder.dateTime :=
        List.map_congr_left fun r _ => by
          by_cases h : r.dateTime = dt <;> simp [h, setCompleted]
      rw [this]; exact hnd
    have hall1 : ∀ d ∈ dts, ∀ r1 ∈ (rs.map fun r =>
        if r.dateTime = dt then setCompleted r else r),
        r1.dateTime = d → r1.completed.getD false = false := by
      intro d hd r1 hr1 hr1d
      rcases List.mem_map.1 hr1 with ⟨r, hr, hre⟩
      by_cases h : r.dateTime = dt
      · exfalso
        rw [← hre] at hr1d
        simp only [h, if_pos, setCompleted] at hr1d
        exact hdtnot (hr1d ▸ hd)
      · rw [← hre] at hr1d ⊢
        simp only [h, if_neg, ite_false] at hr1d ⊢
        exact hall d (List.mem_cons_of_mem _ hd) r hr hr1d
    rw [markList_nodup_eq dts _ hnd1 (List.nodup_cons.1 hdts).2 hall1]
    rw [List.map_map]
    apply List.map_congr_left
    intro r _
    by_cases h : r.dateTime = dt
    · simp [Function.comp, h, setCompleted, hdtnot]
    · by_cases h2 : r.dateTime ∈ dts
      · simp [Function.comp, h, h2]
      · simp [Function.comp, h, h2]

theorem markFirstMatch_snd_true :
    ∀ (dt : String) (rs : List Reminder),
      (rs.map Reminder.dateTime).Nodup →
      (∃ r ∈ rs, r.dateTime = dt ∧ r.completed.getD false = false) →
      (markFirstMatch dt rs).2 = true
  | _, [], _, hw => by simp at hw
  | dt, r :: rs, hnd, hw => by
    rw [List.map_cons] at hnd
    have hnd' := List.nodup_cons.1 hnd
    by_cases hdt : r.dateTime = dt
    · have hfalsy : r.completed.getD false = false := by
        rcases hw with ⟨w, hwmem, hwdt, hwf⟩
        rcases List.mem_cons.1 hwmem with rfl | hwtail
        · exact hwf
        · exact absurd (by rw [hdt, ← hwdt]; exact List.mem_map.2 ⟨w, hwtail, rfl⟩)
            hnd'.1
      simp [markFirstMatch, hdt, hfalsy]
    · rcases hw with ⟨w, hwmem, hwdt, hwf⟩
      rcases List.mem_cons.1 hwmem with rfl | hwtail
      · exact absurd hwdt hdt
      · have := markFirstMatch_snd_true dt rs hnd'.2 ⟨w, hwtail, hwdt, hwf⟩
        simp [markFirstMatch, hdt, this]

theorem markFold_true :
    ∀ (dts : List String) (p : List Reminder),
      ((dts.foldl
          (fun acc dt =>
            let q := markFirstMatch dt acc.1
            (q.1, acc.2 || q.2))
          (p, true)).2) = true
  | [], _ => rfl
  | dt :: dts, p => by
    rw [List.foldl_cons]
    simpa using markFold_true dts (markFirstMatch dt p).1

theorem markListAny_head_true (dt : String) (dts : List String)
    (rs : List Reminder) (h : (markFirstMatch dt rs).2 = true) :
    markListAny (dt :: dts) rs = true := by
  unfold markListAny
  rw [List.foldl_cons]
  simpa [h] using markFold_true dts (markFirstMatch dt rs).1

theorem forall₂_comp_helper {α : Type} {R S T : α → α → Prop}
    (h : ∀ a b c, R a b → S b c → T a c) :
    ∀ {l m n : List α}, List.Forall₂ R l m → List.Forall₂ S m n →
      List.Forall₂ T l n := by
  intro l m n h1
  induction h1 generalizing n with
  | nil =>
    intro h2
    cases h2
    exact List.Forall₂.nil
  | cons hab htail ih =>
    intro h2
    cases h2 with
    | cons hbc htail2 => exact List.Forall₂.cons (h _ _ _ hab hbc) (ih htail2)

theorem forall₂_exists_right {α β : Type} {R : α → β → Prop} :
    ∀ {l : List α} {m : List β}, List.Forall₂ R l m →
      ∀ a ∈ l, ∃ b ∈ m, R a b := by
  intro l m h
  induction h with
  | nil => intro a ha; simp at ha
  | cons hab _ ih =>
    intro a ha
    rcases List.mem_cons.1 ha with rfl | hatail
    · exact ⟨_, by simp, hab⟩
    · rcases ih a hatail with ⟨b, hb, hr⟩
      exact ⟨b, List.mem_cons_of_mem _ hb, hr⟩

theorem setCompleted_idem (r : Reminder) :
    setCompleted (setCompleted r) = setCompleted r := rfl

theorem markFirstMatch_setCompleted_forall₂ (dt : String) (rs : List Reminder) :
    List.Forall₂ (fun a b => b = a ∨ b = setCompleted a)
      rs (markFirstMatch dt rs).1 := by
  induction rs with
  | nil => exact List.Forall₂.nil
  | cons r rs ih =>
    by_cases hdt : r.dateTime = dt
    · by_cases hcv : r.completed.getD false = true
      · have hred : (markFirstMatch dt (r :: rs)).1 = r :: rs := by
          simp [markFirstMatch, hdt, hcv]
        rw [hred]
        exact List.Forall₂.cons (Or.inl rfl)
          (List.forall₂_same.2 fun x _ => Or.inl rfl)
      · have hcv' : r.completed.getD false = false := by simpa using hcv
        have hred : (markFirstMatch dt (r :: rs)).1 = setCompleted r :: rs := by
          simp [markFirstMatch, hdt, hcv', setCompleted]
        rw [hred]
        exact List.Forall₂.cons (Or.inr rfl)
          (List.forall₂_same.2 fun x _ => Or.inl rfl)
    · have hred : (markFirstMatch dt (r :: rs)).1 = r :: (markFirstMatch dt rs).1 := by
        simp [markFirstMatch, hdt]
      rw [hred]
      exact List.Forall₂.cons (Or.inl rfl) ih

theorem markList_setCompleted_forall₂ :
    ∀ (dts : List String) (rs : List Reminder),
      List.Forall₂ (fun a b => b = a ∨ b = setCompleted a) rs (markList dts rs)
  | [], rs => List.forall₂_same.2 fun x _ => Or.inl rfl
  | dt :: dts, rs => by
    have h1 := markFirstMatch_setCompleted_forall₂ dt rs
    have h2 := markList_setCompleted_forall₂ dts (markFirstMatch dt rs).1
    have hstep : markList (dt :: dts) rs = markList dts (markFirstMatch dt rs).1 := rfl
    rw [hstep]
    refine forall₂_comp_helper ?_ h1 h2
    intro a b c hab hbc
    rcases hab with hba | hba <;> rcases hbc with hcb | hcb
    · exact Or.inl (hcb.trans hba)
    · exact Or.inr (by rw [hcb, hba])
    · exact Or.inr (by rw [hcb, hba])
    · exact Or.inr (by rw [hcb, hba, setCompleted_idem])

theorem forall₂_filter_zip {α β : Type} {R : α → β → Prop} (p : α → Bool) :
    ∀ {l : List α} {m : List β}, List.Forall₂ R l m →
      List.Forall₂ R (l.filter p)
        (((l.zip m).filter fun q => p q.1).map Prod.snd) := by
  intro l m h
  induction h with
  | nil => exact List.Forall₂.nil
  | @cons a b l m hab htail ih =>
    by_cases hpa : p a = true
    · simp only [List.zip_cons_cons, List.filter_cons, hpa, if_true, List.map_cons]
      exact List.Forall₂.cons hab ih
    · simp only [List.zip_cons_cons, List.filter_cons, hpa, Bool.false_eq_true,
        if_false]
      exact ih

theorem markFirstMatch_forall₂ (dt : String) (rs : List Reminder) :
    List.Forall₂
      (fun a b => a.dateTime = b.dateTime ∧ (¬ a.dateTime = dt → b = a))
      rs (markFirstMatch dt rs).1 := by
  induction rs with
  | nil => exact List.Forall₂.nil
  | cons r rs ih =>
    by_cases hdt : r.dateTime = dt
    · by_cases hcv : r.completed.getD false = true
      · have hred : (markFirstMatch dt (r :: rs)).1 = r :: rs := by
          simp [markFirstMatch, hdt, hcv]
        rw [hred]
        exact List.Forall₂.cons ⟨rfl, fun _ => rfl⟩
          (List.forall₂_same.2 fun x _ => ⟨rfl, fun _ => rfl⟩)
      · have hred : (markFirstMatch dt (r :: rs)).1 = setCompleted r :: rs := by
          have hcv' : r.completed.getD false = false := by simpa using hcv
          simp [markFirstMatch, hdt, hcv', setCompleted]
        rw [hred]
        exact List.Forall₂.cons ⟨rfl, fun hne => absurd hdt hne⟩
          (List.forall₂_same.2 fun x _ => ⟨rfl, fun _ => rfl⟩)
    · have hred : (markFirstMatch dt (r :: rs)).1 = r :: (markFirstMatch dt rs).1 := by
        simp [markFirstMatch, hdt]
      rw [hred]
      exact List.Forall₂.cons ⟨rfl, fun _ => rfl⟩ ih

theorem markList_forall₂ :
    ∀ (dts : List String) (rs : List Reminder),
      List.Forall₂
        (fun a b => a.dateTime = b.dateTime ∧ (a.dateTime ∉ dts → b = a))
        rs (markList dts rs)
  | [], rs => List.forall₂_same.2 fun x _ => ⟨rfl, fun _ => rfl⟩
  | dt :: dts, rs => by
    have h1 := markFirstMatch_forall₂ dt rs
    have h2 := markList_forall₂ dts (markFirstMatch dt rs).1
    have hstep : markList (dt :: dts) rs = markList dts (markFirstMatch dt rs).1 := rfl
    rw [hstep]
    refine forall₂_comp_helper ?_ h1 h2
    rintro a b c ⟨hab1, hab2⟩ ⟨hbc1, hbc2⟩
    refine ⟨hab1.trans hbc1, fun hnot => ?_⟩
    have hadt : ¬ a.dateTime = dt := fun h => hnot (by simp [h])
    have hb : b = a := hab2 hadt
    have hc : c = b := hbc2 (by
      rw [← hab1]
      exact fun hmem => hnot (List.mem_cons_of_mem _ hmem))
    rw [hc, hb]

theorem checkDue_eq (parse : String → Option Int) (now : Int) (state : StateFile)
    (hnd : ((state.reminders.getD []).map Reminder.dateTime).Nodup) :
    (checkDue parse now state).1 =
        ((state.reminders.getD []).filter (isDue parse now)).map setCompleted ∧
      (checkDue parse now state).2.reminders.getD [] =
        (state.reminders.getD []).map
          (fun r => if isDue parse now r = true then setCompleted r else r) ∧
      (checkDue parse now state).2.lastRun = state.lastRun ∧
      (checkDue parse now state).2.lastContextMtimeMs = state.lastContextMtimeMs ∧
      (checkDue parse now state).2.notesFolderPath = state.notesFolderPath := by
  by_cases hemp : (state.reminders.getD []).filter (isDue parse now) = []
  · have hck : checkDue parse now state = ([], state) := by
      simp [checkDue, hemp]
    rw [hck]
    have hmapid : (state.reminders.getD []).map
        (fun r => if isDue parse now r = true then setCompleted r else r) =
        state.reminders.getD [] := by
      have hnone : ∀ r ∈ state.reminders.getD [], ¬ isDue parse now r = true := by
        intro r hr hdue
        have : r ∈ (state.reminders.getD []).filter (isDue parse now) :=
          List.mem_filter.2 ⟨hr, hdue⟩
        rw [hemp] at this
        simp at this
      have := List.map_congr_left
        (f := fun r => if isDue parse now r = true then setCompleted r else r)
        (g := id) (l := state.reminders.getD [])
        fun r hr => by simp [if_neg (hnone r hr)]
      simpa using this
    exact ⟨by simp [hemp], hmapid.symm, rfl, rfl, rfl⟩
  · have hdueDts_nd :
        (((state.reminders.getD []).filter (isDue parse now)).map
          Reminder.dateTime).Nodup :=
      hnd.sublist ((List.filter_sublist (state.reminders.getD [])).map Reminder.dateTime)
    have hall : ∀ dt ∈ ((state.reminders.getD []).filter (isDue parse now)).map
          Reminder.dateTime,
        ∀ r ∈ state.reminders.getD [], r.dateTime = dt →
          r.completed.getD false = false := by
      intro dt hdt r hr hrdt
      rcases List.mem_map.1 hdt with ⟨r1, hr1, hr1dt⟩
      rcases List.mem_filter.1 hr1 with ⟨hr1rs, hr1due⟩
      have heq : r = r1 := List.inj_on_of_nodup_map hnd hr hr1rs (by rw [hrdt, hr1dt])
      rw [heq]
      exact isDue_falsy hr1due
    have hcond : ∀ r ∈ state.reminders.getD [],
        (r.dateTime ∈ ((state.reminders.getD []).filter (isDue parse now)).map
          Reminder.dateTime) ↔ isDue parse now r = true := by
      intro r hr
      constructor
      · intro hmem
        rcases List.mem_map.1 hmem with ⟨r1, hr1, hr1dt⟩
        rcases List.mem_filter.1 hr1 with ⟨hr1rs, hr1due⟩
        have heq : r = r1 := List.inj_on_of_nodup_map hnd hr hr1rs hr1dt.symm
        rw [heq]
        exact hr1due
      · intro hdue
        exact List.mem_map.2 ⟨r, List.mem_filter.2 ⟨hr, hdue⟩, rfl⟩
    have hmark : markList
        (((state.reminders.getD []).filter (isDue parse now)).map Reminder.dateTime)
        (state.reminders.getD []) =
        (state.reminders.getD []).map
          (fun r => if isDue parse now r = true then setCompleted r else r) := by
      rw [markList_nodup_eq _ _ hnd hdueDts_nd hall]
      apply List.map_congr_left
      intro r hr
      by_cases h : isDue parse now r = true
      · rw [if_pos ((hcond r hr).2 h), if_pos h]
      · rw [if_neg (fun hm => h ((hcond r hr).1 hm)), if_neg h]
    have hany : markListAny
        (((state.reminders.getD []).filter (isDue parse now)).map Reminder.dateTime)
        (state.reminders.getD []) = true := by
      rcases hfl : (state.reminders.getD []).filter (isDue parse now) with _ | ⟨r0, tl⟩
      · exact absurd hfl hemp
      have hr0 : r0 ∈ state.reminders.getD [] ∧ isDue parse now r0 = true := by
        have hm : r0 ∈ (state.reminders.getD []).filter (isDue parse now) := by
          rw [hfl]; simp
        exact ⟨(List.mem_filter.1 hm).1, (List.mem_filter.1 hm).2⟩
      rw [List.map_cons]
      exact markListAny_head_true _ _ _
        (markFirstMatch_snd_true r0.dateTime _ hnd ⟨r0, hr0.1, rfl, isDue_falsy hr0.2⟩)
    have hne : ((state.reminders.getD []).filter (isDue parse now)).isEmpty = false := by
      rcases hfl : (state.reminders.getD []).filter (isDue parse now) with _ | ⟨r0, tl⟩
      · exact absurd hfl hemp
      · rfl
    have hck : checkDue parse now state =
        ((((state.reminders.getD []).zip
              (markList (((state.reminders.getD []).filter (isDue parse now)).map
                Reminder.dateTime) (state.reminders.getD []))).filter
            (fun p => isDue parse now p.1)).map Prod.snd,
          { state with
            reminders := some (markList
              (((state.reminders.getD []).filter (isDue parse now)).map
                Reminder.dateTime) (state.reminders.getD [])) }) := by
      simp only [checkDue, hne, Bool.false_eq_true, if_false, hany, if_true]
    have hzip : (state.reminders.getD []).zip
        ((state.reminders.getD []).map
          (fun r => if isDue parse now r = true then setCompleted r else r)) =
        (state.reminders.getD []).map
          (fun r => (r, if isDue parse now r = true then setCompleted r else r)) := by
      simpa using List.zip_map' id
        (fun r => if isDue parse now r = true then setCompleted r else r)
        (state.reminders.getD [])
    have hfiltp : ((state.reminders.getD []).filter
        ((fun p : Reminder × Reminder => isDue parse now p.1) ∘
          fun r => (r, if isDue parse now r = true then setCompleted r else r))) =
        (state.reminders.getD []).filter (isDue parse now) := by
      apply List.filter_congr
      intro r _
      rfl
    rw [hck, hmark]
    refine ⟨?_, by simp, rfl, rfl, rfl⟩
    dsimp only
    rw [hzip, List.filter_map, List.map_map, hfiltp]
    apply List.map_congr_left
    intro r hr
    have hdue : isDue parse now r = true := (List.mem_filter.1 hr).2
    simp [Function.comp, hdue]

/-! ## Due-check claims -/

/-- C2 — confirmed: for a store with pairwise distinct `dateTime`s the
due-check returns exactly the reminders (identified by `dateTime` and
`reminderText`) whose `completed` is falsy and whose `dateTime` parses to a
time `≤ now`; the store written back has exactly those marked
`completed = true` (pointwise) and every other reminder and every other
store field unchanged.  (The `completed` value carried by the *returned*
list elements is the subject of the separate aliasing claim.) -/
theorem checkDue_marks_exactly_due (parse : String → Option Int) (now : Int)
    (state : StateFile)
    (hnd : ((state.reminders.getD []).map Reminder.dateTime).Nodup) :
    ((checkDue parse now state).1.map fun r => (r.dateTime, r.reminderText)) =
        (((state.reminders.getD []).filter (isDue parse now)).map
          fun r => (r.dateTime, r.reminderText)) ∧
      (∀ r : Reminder, isDue parse now r = true ↔
        (¬ r.completed = some true ∧ ∃ t, parse r.dateTime = some t ∧ t ≤ now)) ∧
      (checkDue parse now state).2.reminders.getD [] =
        (state.reminders.getD []).map
          (fun r => if isDue parse now r = true then setCompleted r else r) ∧
      (checkDue parse now state).2.lastRun = state.lastRun ∧
      (checkDue parse now state).2.lastContextMtimeMs = state.lastContextMtimeMs ∧
      (checkDue parse now state).2.notesFolderPath = state.notesFolderPath := by
  obtain ⟨h1, h2, h3, h4, h5⟩ := checkDue_eq parse now state hnd
  refine ⟨?_, isDue_iff parse now, h2, h3, h4, h5⟩
  rw [h1, List.map_map]
  apply List.map_congr_left
  intro r _
  rfl

theorem checkDue_marks_exactly_due_witness :
    ((epochStore.reminders.getD []).map Reminder.dateTime).Nodup ∧
      ((checkDue parse1970 0 epochStore).1.map
          fun r => (r.dateTime, r.reminderText)) =
        (((epochStore.reminders.getD []).filter (isDue parse1970 0)).map
          fun r => (r.dateTime, r.reminderText)) :=
  ⟨by decide, (checkDue_marks_exactly_due parse1970 0 epochStore (by decide)).1⟩

/-- C3 — confirmed: for a store with pairwise distinct `dateTime`s, running
the due-check twice with the same reference time (the first call's write
succeeding, as the embedding assumes) makes the second call return an empty
`dueReminders` list: every reminder due on the first call was marked
completed in the persisted store. -/
theorem checkDue_second_call_empty (parse : String → Option Int) (now : Int)
    (state : StateFile)
    (hnd : ((state.reminders.getD []).map Reminder.dateTime).Nodup) :
    (checkDue parse now (checkDue parse now state).2).1 = [] := by
  obtain ⟨_, h2, _, _, _⟩ := checkDue_eq parse now state hnd
  have hnd1 : (((checkDue parse now state).2.reminders.getD []).map
      Reminder.dateTime).Nodup := by
    rw [h2, List.map_map]
    have hsame : ((state.reminders.getD []).map
        (Reminder.dateTime ∘ fun r =>
          if isDue parse now r = true then setCompleted r else r)) =
        (state.reminders.getD []).map Reminder.dateTime :=
      List.map_congr_left fun r _ => by
        by_cases h : isDue parse now r = true <;> simp [h, setCompleted]
    rw [hsame]
    exact hnd
  obtain ⟨g1, _, _, _, _⟩ := checkDue_eq parse now (checkDue parse now state).2 hnd1
  rw [g1]
  have hfe : ((checkDue parse now state).2.reminders.getD []).filter
      (isDue parse now) = [] := by
    rw [List.eq_nil_iff_forall_not_mem]
    intro a ha
    have hdue := (List.mem_filter.1 ha).2
    have hmem := (List.mem_filter.1 ha).1
    rw [h2] at hmem
    rcases List.mem_map.1 hmem with ⟨r, _, hre⟩
    by_cases h : isDue parse now r = true
    · rw [if_pos h] at hre
      rw [← hre, isDue_setCompleted] at hdue
      exact Bool.false_ne_true hdue
    · rw [if_neg h] at hre
      rw [← hre] at hdue
      exact h hdue
  rw [hfe]
  rfl

theorem checkDue_second_call_empty_witness :
    ((epochStore.reminders.getD []).map Reminder.dateTime).Nodup ∧
      (checkDue parse1970 0 (checkDue parse1970 0 epochStore).2).1 = [] :=
  ⟨by decide, checkDue_second_call_empty parse1970 0 epochStore (by decide)⟩

/-- C4 — counterexample.  The returned `dueReminders` elements are *not*
pre-mutation copies: `dueReminders.push(reminder)` pushes a reference into
the store's array, and the subsequent in-place `reminder.completed = true`
happens before the response is serialized, so the returned element reads
`completed = true` even though its pre-call value was absent (falsy). -/
theorem checkDue_premutation_copy_cex :
    ((checkDue parse1970 0 epochStore).1.map Reminder.completed) = [some true] ∧
      ((epochStore.reminders.getD []).map Reminder.completed) = [none] := by
  constructor
  · decide
  · decide

/-- C4 — amended: each element of the returned `dueReminders` list is the
stored reminder object itself read *after* the in-place marking loop, not a
pre-mutation copy: pointwise, the returned element is the corresponding due
pre-call reminder either with `completed` set to `true` in place, or — when
the marking loop missed the object, possible with duplicate `dateTime`s —
unchanged.  Its `dateTime` and `reminderText` always keep their pre-call
values (so callers can still read the original text), but its `completed`
field reflects the post-mutation state and is not guaranteed to be the
pre-call falsy value. -/
theorem checkDue_returns_postmutation (parse : String → Option Int) (now : Int)
    (state : StateFile) :
    List.Forall₂
      (fun a b => (b = a ∨ b = setCompleted a) ∧
        b.dateTime = a.dateTime ∧ b.reminderText = a.reminderText)
      ((state.reminders.getD []).filter (isDue parse now))
      (checkDue parse now state).1 := by
  have hbase : List.Forall₂ (fun a b => b = a ∨ b = setCompleted a)
      ((state.reminders.getD []).filter (isDue parse now))
      (checkDue parse now state).1 := by
    by_cases hemp : ((state.reminders.getD []).filter (isDue parse now)).isEmpty = true
    · have hck : checkDue parse now state = ([], state) := by
        simp only [checkDue, hemp, if_true]
      have hfl : (state.reminders.getD []).filter (isDue parse now) = [] := by
        simpa using hemp
      rw [hck, hfl]
      exact List.Forall₂.nil
    · have hne : ((state.reminders.getD []).filter (isDue parse now)).isEmpty =
          false := by
        simpa using hemp
      have hck : checkDue parse now state =
          ((((state.reminders.getD []).zip
                (markList (((state.reminders.getD []).filter (isDue parse now)).map
                  Reminder.dateTime) (state.reminders.getD []))).filter
              (fun p => isDue parse now p.1)).map Prod.snd,
            if markListAny
                (((state.reminders.getD []).filter (isDue parse now)).map
                  Reminder.dateTime) (state.reminders.getD []) = true then
              { state with
                reminders := some (markList
                  (((state.reminders.getD []).filter (isDue parse now)).map
                    Reminder.dateTime) (state.reminders.getD [])) }
            else state) := by
        simp only [checkDue, hne, Bool.false_eq_true, if_false]
      rw [hck]
      dsimp only
      exact forall₂_filter_zip (isDue parse now)
        (markList_setCompleted_forall₂ _ _)
  refine hbase.imp ?_
  intro a b hab
  rcases hab with rfl | rfl
  · exact ⟨Or.inl rfl, rfl, rfl⟩
  · exact ⟨Or.inr rfl, rfl, rfl⟩

/-- C10 — confirmed: a non-completed reminder whose `dateTime` string does
not parse (`new Date` yields an Invalid Date, whose comparison with `now` is
always `false`; nothing throws) is never reported due — no returned element
carries its `dateTime` — and it is retained unchanged (still pending) in the
persisted store. -/
theorem checkDue_unparseable_retained (parse : String → Option Int) (now : Int)
    (state : StateFile) (r : Reminder)
    (hr : r ∈ state.reminders.getD []) (hp : parse r.dateTime = none)
    (hc : ¬ r.completed = some true) :
    (∀ d ∈ (checkDue parse now state).1, ¬ d.dateTime = r.dateTime) ∧
      r ∈ (checkDue parse now state).2.reminders.getD [] := by
  by_cases hemp : ((state.reminders.getD []).filter (isDue parse now)).isEmpty = true
  · have hck : checkDue parse now state = ([], state) := by
      simp only [checkDue, hemp, if_true]
    rw [hck]
    exact ⟨by simp, hr⟩
  · have hne : ((state.reminders.getD []).filter (isDue parse now)).isEmpty = false := by
      simpa using hemp
    have hnotdts : r.dateTime ∉
        ((state.reminders.getD []).filter (isDue parse now)).map Reminder.dateTime := by
      intro hmem
      rcases List.mem_map.1 hmem with ⟨r1, hr1, hr1dt⟩
      rcases isDue_parse_some (List.mem_filter.1 hr1).2 with ⟨t, ht⟩
      rw [hr1dt, hp] at ht
      exact Option.noConfusion ht
    have hF := markList_forall₂
      (((state.reminders.getD []).filter (isDue parse now)).map Reminder.dateTime)
      (state.reminders.getD [])
    have hck : checkDue parse now state =
        ((((state.reminders.getD []).zip
              (markList (((state.reminders.getD []).filter (isDue parse now)).map
                Reminder.dateTime) (state.reminders.getD []))).filter
            (fun p => isDue parse now p.1)).map Prod.snd,
          if markListAny
              (((state.reminders.getD []).filter (isDue parse now)).map
                Reminder.dateTime) (state.reminders.getD []) = true then
            { state with
              reminders := some (markList
                (((state.reminders.getD []).filter (isDue parse now)).map
                  Reminder.dateTime) (state.reminders.getD [])) }
          else state) := by
      simp only [checkDue, hne, Bool.false_eq_true, if_false]
    constructor
    · intro d hd
      rw [hck] at hd
      dsimp only at hd
      rcases List.mem_map.1 hd with ⟨p, hpmem, hpd⟩
      rcases p with ⟨a, b⟩
      have hpz := List.mem_filter.1 hpmem
      have hrel := List.forall₂_zip hF hpz.1
      rcases isDue_parse_some hpz.2 with ⟨t, ht⟩
      intro hdr
      rw [← hpd] at hdr
      rw [← hrel.1] at hdr
      rw [hdr, hp] at ht
      exact Option.noConfusion ht
    · rw [hck]
      dsimp only
      by_cases hany : markListAny
          (((state.reminders.getD []).filter (isDue parse now)).map
            Reminder.dateTime) (state.reminders.getD []) = true
      · rw [if_pos hany]
        simp only [Option.getD_some]
        obtain ⟨b, hb, hrel⟩ := forall₂_exists_right hF r hr
        have hbr : b = r := hrel.2 hnotdts
        rw [← hbr]
        exact hb
      · rw [if_neg hany]
        exact hr

theorem checkDue_unparseable_retained_witness :
    ((⟨"not-a-date", "stretch", none⟩ : Reminder) ∈
          badDateStore.reminders.getD [] ∧
        parse1970 "not-a-date" = none) ∧
      (⟨"not-a-date", "stretch", none⟩ : Reminder) ∈
        (checkDue parse1970 0 badDateStore).2.reminders.getD [] :=
  ⟨⟨by decide, by decide⟩,
    (checkDue_unparseable_retained parse1970 0 badDateStore
      ⟨"not-a-date", "stretch", none⟩ (by decide) (by decide) (by decide)).2⟩

/-! ## Witnesses for the merge and cycle claims -/

theorem merge_preserves_completed_witness :
    (([⟨"a", "x", some true⟩] : List Reminder).map Reminder.dateTime).Nodup ∧
      (⟨"a", "x", some true⟩ : Reminder) ∈
        mergeReminders [⟨"a", "x", some true⟩] [] :=
  ⟨by decide,
    (@merge_preserves_completed [⟨"a", "x", some true⟩] []
      ⟨"a", "x", some true⟩ (by decide) (by decide) rfl).1⟩

theorem merge_nodup_key_witness :
    ((([⟨"a", "x", some true⟩] : List Reminder).map Reminder.dateTime).Nodup ∧
        (([⟨"b", "y"⟩] : List FreshReminder).map FreshReminder.dateTime).Nodup) ∧
      ((mergeReminders [⟨"a", "x", some true⟩] [⟨"b", "y"⟩]).map
        Reminder.dateTime).Nodup :=
  ⟨⟨by decide, by decide⟩, merge_nodup_key (by decide) (by decide)⟩

theorem merge_drops_stale_pending_witness :
    (⟨"a", "x", none⟩ : Reminder) ∉
      mergeReminders [⟨"a", "x", none⟩] [⟨"b", "y"⟩] :=
  merge_drops_stale_pending (by decide) (by decide) (by decide)

theorem cycle_fingerprint_skip_witness :
    (runCycle epochStore 1 (some []) "t1" "p").1 = CycleOutcome.updated ∧
      runCycle (runCycle epochStore 1 (some []) "t1" "p").2.1 1 none "t2" "q" =
        (CycleOutcome.skippedUnchanged,
          (runCycle epochStore 1 (some []) "t1" "p").2.1, false) :=
  ⟨by decide,
    cycle_fingerprint_skip epochStore 1 (some []) "t1" "p" none "t2" "q"
      (by decide)⟩

theorem cycle_extraction_failure_keeps_store_witness :
    epochStore.lastContextMtimeMs ≠ some 0 ∧
      runCycle epochStore 0 none "t" "p" =
        (CycleOutcome.extractionError, epochStore, true) :=
  ⟨by decide, cycle_extraction_failure_keeps_store epochStore 0 "t" "p" (by decide)⟩

end OpenCoach
